import Mathlib

/-!
Verification of the message-analysis core of the `stats-insta` repository
(`src/App.tsx`) against its natural-language specification.

JavaScript strings are modelled as lists of Unicode code points (`JsStr`),
and JavaScript numbers occurring as `timestamp_ms` values as integers.
Plain JavaScript objects used as string-keyed maps are modelled as
association lists in property-creation order, together with the
`jsEntries` enumeration function that reproduces the JavaScript
own-property order (canonical array-index keys first, in ascending
numeric order, then the remaining string keys in creation order).
-/

namespace StatsInsta

/-- A JavaScript string, as the list of its Unicode code points. -/
abbrev JsStr := List Nat

/-- Embed a Lean string literal as a `JsStr` (list of code points). -/
def str (s : String) : JsStr := s.toList.map Char.toNat

/-- The characters removed by JavaScript `String.prototype.trim`:
`WhiteSpace` and `LineTerminator` code points per ECMA-262. -/
def isJsSpace (c : Nat) : Bool :=
  c = 9 || c = 10 || c = 11 || c = 12 || c = 13 || c = 32 || c = 160 ||
  c = 0x1680 || (0x2000 ≤ c && c ≤ 0x200A) || c = 0x2028 || c = 0x2029 ||
  c = 0x202F || c = 0x205F || c = 0x3000 || c = 0xFEFF

/-- JavaScript `s.trim()`: strip leading and trailing whitespace. -/
def jsTrim (s : JsStr) : JsStr :=
  ((s.dropWhile isJsSpace).reverse.dropWhile isJsSpace).reverse

/-- JavaScript `s.toLowerCase()` restricted to the ASCII letters, which is
all the source ever compares against (the three filter phrases are ASCII,
and non-ASCII content is discarded by the same predicate). -/
def toLowerAscii (s : JsStr) : JsStr :=
  s.map (fun c => if 65 ≤ c ∧ c ≤ 90 then c + 32 else c)

/-- JavaScript `hay.includes(needle)`: substring test. -/
def strIncludes (needle : JsStr) (hay : JsStr) : Bool :=
  match hay with
  | [] => needle.isEmpty
  | _ :: rest => needle.isPrefixOf hay || strIncludes needle rest

/-- One chat record as held in component state (`interface Message`). -/
structure Message where
  sender_name : JsStr
  content : JsStr
  timestamp_ms : Option Int
deriving DecidableEq, Repr

/-- The filter predicate of `filterMessages` (`src/App.tsx:72-79`), applied
to a message whose content has already been trimmed:
keep the message iff the content is nonempty, its lowercase form contains
none of the three boilerplate phrases, and it is pure 7-bit ASCII. -/
def keepMsg (m : Message) : Bool :=
  !m.content.isEmpty &&
  !strIncludes (str "liked a message") (toLowerAscii m.content) &&
  !strIncludes (str "attachment") (toLowerAscii m.content) &&
  !strIncludes (str "like") (toLowerAscii m.content) &&
  !m.content.any (fun c => 127 < c)

/-- `filterMessages` (`src/App.tsx:66-80`): trim every message's content,
then keep only the messages satisfying `keepMsg`. -/
def filterMessages (messages : List Message) : List Message :=
  (messages.map (fun m => { m with content := jsTrim m.content })).filter keepMsg

/-- Lowercase/uppercase-hex digit test, as in the regex `[0-9a-fA-F]`. -/
def isHexDigit (c : Nat) : Bool :=
  (48 ≤ c && c ≤ 57) || (65 ≤ c && c ≤ 70) || (97 ≤ c && c ≤ 102)

/-- Numeric value of a hex digit code point. -/
def hexVal (c : Nat) : Nat :=
  if c ≤ 57 then c - 48 else if c ≤ 70 then c - 55 else c - 87

/-- The global regex replacement
`unicodeString.replace(/\\u([0-9a-fA-F]{4})/g, "%u$1")` of
`decodeUnicode` (`src/App.tsx:51`): each literal backslash-u escape with
four hex digits becomes a percent-u sequence; everything else is copied. -/
def replEsc : JsStr → JsStr
  | 92 :: 117 :: a :: b :: c :: d :: rest2 =>
    if isHexDigit a && isHexDigit b && isHexDigit c && isHexDigit d then
      37 :: 117 :: a :: b :: c :: d :: replEsc rest2
    else
      -- on a failed match the regex scan advances one position; a fresh
      -- match cannot start at the following `u`, so two characters are
      -- copied before rescanning
      92 :: 117 :: replEsc (a :: b :: c :: d :: rest2)
  | x :: rest => x :: replEsc rest
  | [] => []

/-- One `%`-escape of `decodeURIComponent`, applied to the characters that
follow the `%`: read the two hex digits, and, for a multi-byte UTF-8
leading byte, the literal `%XX` continuation escapes, enforcing strict
UTF-8 ranges (ECMA-262 / WHATWG table).  Returns the decoded code point
and the number of characters consumed after the `%`; `none` models a
thrown `URIError`. -/
def pctEscape : JsStr → Option (Nat × Nat)
  | a :: b :: rest2 =>
    if isHexDigit a && isHexDigit b then
      let b1 := 16 * hexVal a + hexVal b
      if b1 ≤ 127 then some (b1, 2)
      else if 194 ≤ b1 && b1 ≤ 223 then
        match rest2 with
        | 37 :: a1 :: b1' :: _ =>
          if isHexDigit a1 && isHexDigit b1' then
            let v1 := 16 * hexVal a1 + hexVal b1'
            if 128 ≤ v1 && v1 ≤ 191 then
              some ((b1 - 192) * 64 + (v1 - 128), 5)
            else none
          else none
        | _ => none
      else if 224 ≤ b1 && b1 ≤ 239 then
        match rest2 with
        | 37 :: a1 :: b1' :: 37 :: a2 :: b2' :: _ =>
          if isHexDigit a1 && isHexDigit b1' && isHexDigit a2 && isHexDigit b2' then
            let v1 := 16 * hexVal a1 + hexVal b1'
            let v2 := 16 * hexVal a2 + hexVal b2'
            let lo1 := if b1 = 224 then 160 else 128
            let hi1 := if b1 = 237 then 159 else 191
            if (lo1 ≤ v1 && v1 ≤ hi1) && (128 ≤ v2 && v2 ≤ 191) then
              some ((b1 - 224) * 4096 + (v1 - 128) * 64 + (v2 - 128), 8)
            else none
          else none
        | _ => none
      else if 240 ≤ b1 && b1 ≤ 244 then
        match rest2 with
        | 37 :: a1 :: b1' :: 37 :: a2 :: b2' :: 37 :: a3 :: b3' :: _ =>
          if isHexDigit a1 && isHexDigit b1' && isHexDigit a2 && isHexDigit b2' &&
              isHexDigit a3 && isHexDigit b3' then
            let v1 := 16 * hexVal a1 + hexVal b1'
            let v2 := 16 * hexVal a2 + hexVal b2'
            let v3 := 16 * hexVal a3 + hexVal b3'
            let lo1 := if b1 = 240 then 144 else 128
            let hi1 := if b1 = 244 then 143 else 191
            if (lo1 ≤ v1 && v1 ≤ hi1) && (128 ≤ v2 && v2 ≤ 191) &&
                (128 ≤ v3 && v3 ≤ 191) then
              some ((b1 - 240) * 262144 + (v1 - 128) * 4096 + (v2 - 128) * 64 +
                (v3 - 128), 11)
            else none
          else none
        | _ => none
      else none
    else none
  | _ => none

/-- `decodeURIComponent` (ECMA-262): decode every `%XX` escape via
`pctEscape`; `none` models a thrown `URIError`.  Code points other than
`%` pass through unchanged. -/
def percentDecode : JsStr → Option JsStr
  | [] => some []
  | c :: rest =>
    if c = 37 then
      match pctEscape rest with
      | some (cp, k) => (percentDecode (rest.drop k)).map (cp :: ·)
      | none => none
    else (percentDecode rest).map (c :: ·)
termination_by l => l.length
decreasing_by
  · simp only [List.length_drop, List.length_cons]
    omega
  · simp only [List.length_cons]
    omega

/-- `decodeUnicode` (`src/App.tsx:48-57`): rewrite backslash-u escapes to
percent-u form and pass the result to `decodeURIComponent`; if the latter
throws, return the original string. -/
def decodeUnicode (unicodeString : JsStr) : JsStr :=
  match percentDecode (replEsc unicodeString) with
  | some r => r
  | none => unicodeString

/-- `utf8.decode` from the npm `utf8` package (v3), as called at
`src/App.tsx:196-197`: reinterpret each code point of the input as a byte
(masked with `0xFF`) and decode the byte sequence as UTF-8.  `none` models
a thrown decode error (invalid leading byte, truncated or invalid
continuation, overlong form, surrogate, or out-of-range code point). -/
def utf8DecodeBytes : List Nat → Option (List Nat)
  | [] => some []
  | b :: rest =>
    let b1 := b % 256
    if b1 &&& 128 = 0 then (utf8DecodeBytes rest).map (b1 :: ·)
    else if b1 &&& 224 = 192 then
      match rest with
      | c :: rest2 =>
        let c1 := c % 256
        if c1 &&& 192 = 128 then
          let cp := ((b1 &&& 31) <<< 6) ||| (c1 &&& 63)
          if 128 ≤ cp then (utf8DecodeBytes rest2).map (cp :: ·) else none
        else none
      | [] => none
    else if b1 &&& 240 = 224 then
      match rest with
      | c :: d :: rest2 =>
        let c1 := c % 256
        let d1 := d % 256
        if c1 &&& 192 = 128 then
          if d1 &&& 192 = 128 then
            let cp := ((b1 &&& 15) <<< 12) ||| ((c1 &&& 63) <<< 6) ||| (d1 &&& 63)
            if 2048 ≤ cp then
              if 55296 ≤ cp ∧ cp ≤ 57343 then none
              else (utf8DecodeBytes rest2).map (cp :: ·)
            else none
          else none
        else none
      | _ => none
    else if b1 &&& 248 = 240 then
      match rest with
      | c :: d :: e :: rest2 =>
        let c1 := c % 256
        let d1 := d % 256
        let e1 := e % 256
        if c1 &&& 192 = 128 then
          if d1 &&& 192 = 128 then
            if e1 &&& 192 = 128 then
              let cp := ((b1 &&& 7) <<< 18) ||| ((c1 &&& 63) <<< 12) |||
                ((d1 &&& 63) <<< 6) ||| (e1 &&& 63)
              if 65536 ≤ cp ∧ cp ≤ 1114111 then (utf8DecodeBytes rest2).map (cp :: ·)
              else none
            else none
          else none
        else none
      | _ => none
    else none

/-- `utf8.decode` applied to a JavaScript string. -/
def utf8Decode (s : JsStr) : Option JsStr := utf8DecodeBytes s

/-- The JavaScript truthiness test `(msg) => msg.timestamp_ms` used by
`getSortedMessagesAscending` (`src/App.tsx:122`): an absent field and the
number `0` are both falsy. -/
def tsTruthy (m : Message) : Bool :=
  match m.timestamp_ms with
  | some t => t != 0
  | none => false

/-- Sort key: the comparator `(a, b) => a.timestamp_ms! - b.timestamp_ms!`
orders messages by their timestamp value. -/
def tsVal (m : Message) : Int := m.timestamp_ms.getD 0

/-- The comparator order of `src/App.tsx:123` as a relation. -/
def tsLE (a b : Message) : Prop := tsVal a ≤ tsVal b

instance : DecidableRel tsLE := fun a b => inferInstanceAs (Decidable (tsVal a ≤ tsVal b))

instance : IsTotal Message tsLE := ⟨fun a b => Int.le_total (tsVal a) (tsVal b)⟩

instance : IsTrans Message tsLE := ⟨fun _ _ _ h h' => Int.le_trans h h'⟩

/-- `getSortedMessagesAscending` (`src/App.tsx:120-124`): drop falsy
timestamps, then sort ascending by timestamp.  `Array.prototype.sort` is
stable with a consistent comparator, which `List.insertionSort` models. -/
def getSortedMessagesAscending (messages : List Message) : List Message :=
  List.insertionSort tsLE (messages.filter tsTruthy)

/-- JavaScript `l.slice(-count)` for a natural `count`: since `-0` is `0`,
`count = 0` yields the whole array; otherwise the last `count` elements. -/
def jsSliceNeg (l : List Message) (count : Nat) : List Message :=
  if count = 0 then l else l.drop (l.length - count)

/-- `getLatestMessages` (`src/App.tsx:127-130`): `sorted.slice(-count)`. -/
def getLatestMessages (messages : List Message) (count : Nat) : List Message :=
  jsSliceNeg (getSortedMessagesAscending messages) count

/-- `getEarliestMessages` (`src/App.tsx:133-136`): `sorted.slice(0, count)`. -/
def getEarliestMessages (messages : List Message) (count : Nat) : List Message :=
  (getSortedMessagesAscending messages).take count

/-- Decimal digit test for array-index keys. -/
def isDigitCp (c : Nat) : Bool := 48 ≤ c && c ≤ 57

/-- Numeric value of a decimal digit string. -/
def digitsToNat (s : JsStr) : Nat := s.foldl (fun acc c => acc * 10 + (c - 48)) 0

/-- A canonical array-index property key per ECMA-262: the decimal
representation (no leading zero except `"0"` itself) of an integer below
`2^32 - 1`.  Such keys are enumerated before all other string keys. -/
def isArrayIndex (s : JsStr) : Bool :=
  !s.isEmpty && s.all isDigitCp && (s.head? = some 48 → s = [48]) &&
  digitsToNat s < 4294967295

/-- Ascending numeric order on array-index keys. -/
def idxLE {α : Type} (a b : JsStr × α) : Prop := digitsToNat a.1 ≤ digitsToNat b.1

instance {α : Type} : DecidableRel (@idxLE α) :=
  fun a b => inferInstanceAs (Decidable (digitsToNat a.1 ≤ digitsToNat b.1))

instance {α : Type} : IsTotal (JsStr × α) idxLE :=
  ⟨fun a b => Nat.le_total (digitsToNat a.1) (digitsToNat b.1)⟩

instance {α : Type} : IsTrans (JsStr × α) idxLE :=
  ⟨fun _ _ _ h h' => Nat.le_trans h h'⟩

/-- `Object.keys` / `Object.entries` enumeration order on a plain object,
given its properties in creation order: canonical array-index keys first,
in ascending numeric order, then the remaining keys in creation order. -/
def jsEntries {α : Type} (obj : List (JsStr × α)) : List (JsStr × α) :=
  List.insertionSort idxLE (obj.filter (fun e => isArrayIndex e.1)) ++
    obj.filter (fun e => !isArrayIndex e.1)

/-- Descending order on counted entries, the comparator
`(a, b) => b[1] - a[1]` of `src/App.tsx:94` (and `b.count - a.count` of
`src/App.tsx:237`). -/
def cntGE {α : Type} (a b : α × Nat) : Prop := b.2 ≤ a.2

instance {α : Type} : DecidableRel (@cntGE α) :=
  fun a b => inferInstanceAs (Decidable (b.2 ≤ a.2))

instance {α : Type} : IsTotal (α × Nat) cntGE :=
  ⟨fun a b => (Nat.le_total b.2 a.2).imp id id⟩

instance {α : Type} : IsTrans (α × Nat) cntGE :=
  ⟨fun _ _ _ h h' => Nat.le_trans h' h⟩

/-- `messageCounts[msg.content] = (messageCounts[msg.content] || 0) + 1`
(`src/App.tsx:90`) on the plain-object model: update an existing property
in place, or create it (appending in creation order) with value 1. -/
def bump (obj : List (JsStr × Nat)) (k : JsStr) : List (JsStr × Nat) :=
  if obj.any (fun e => e.1 == k) then
    obj.map (fun e => if e.1 == k then (e.1, e.2 + 1) else e)
  else obj ++ [(k, 1)]

/-- `getTopMessages` (`src/App.tsx:83-117`): filter, tally content strings
in a plain object, enumerate with `Object.entries`, stable-sort descending
by count, keep the first 7, and return parallel label/count lists. -/
def getTopMessages (messages : List Message) : List JsStr × List Nat :=
  let filteredMessages := filterMessages messages
  let messageCounts := filteredMessages.foldl (fun obj m => bump obj m.content) []
  let sortedMessages := (List.insertionSort cntGE (jsEntries messageCounts)).take 7
  (sortedMessages.map Prod.fst, sortedMessages.map Prod.snd)

/-- Distinct elements of a list, first occurrence first. -/
def firstDedup : List JsStr → List JsStr
  | [] => []
  | x :: xs => x :: firstDedup (xs.filter (fun y => y ≠ x))
termination_by l => l.length
decreasing_by simp_arith [Nat.lt_succ_of_le, List.length_filter_le]

/-- The tally of a list of strings: each distinct string, first occurrence
first, paired with its occurrence count. -/
def tallyOf (cs : List JsStr) : List (JsStr × Nat) :=
  (firstDedup cs).map (fun k => (k, cs.count k))

/-- Modelled from the spec (§4.3, as amended): the content-frequency
aggregation described declaratively — distinct post-trim contents of the
filtered messages, each with its occurrence count, enumerated in
JavaScript own-property order, stable-sorted descending by count, first 7,
as parallel sequences. -/
def specTopMessages (messages : List Message) : List JsStr × List Nat :=
  let contents := (filterMessages messages).map Message.content
  let top := (List.insertionSort cntGE (jsEntries (tallyOf contents))).take 7
  (top.map Prod.fst, top.map Prod.snd)

/-- `interface UserMessages`: a plain object mapping each sender name to
that sender's messages, modelled in property-creation order. -/
abbrev UserMessages := List (JsStr × List Message)

/-- `userMessages[decodedSenderName].push(...)` with on-demand creation of
the array (`src/App.tsx:199-207`): append to an existing sender's list, or
create the sender property (in creation order) with a one-element list. -/
def pushMsg (um : UserMessages) (k : JsStr) (m : Message) : UserMessages :=
  if um.any (fun e => e.1 == k) then
    um.map (fun e => if e.1 == k then (e.1, e.2 ++ [m]) else e)
  else um ++ [(k, [m])]

/-- One element of the uploaded document's `messages` array: the three
recognized fields, each possibly absent. -/
structure RawRecord where
  sender_name : Option JsStr
  content : Option JsStr
  timestamp_ms : Option Int
deriving DecidableEq, Repr

/-- The per-record body of the `messages.forEach` loop
(`src/App.tsx:190-214`): default absent text fields to the empty string,
`utf8.decode` both; on a decode error the inner `catch` only logs, so the
record is not incorporated and the loop continues with the next record. -/
def ingestRecord (um : UserMessages) (r : RawRecord) : UserMessages :=
  let content := r.content.getD []
  let senderName := r.sender_name.getD []
  match utf8Decode content, utf8Decode senderName with
  | some decodedContent, some decodedSenderName =>
    pushMsg um decodedSenderName
      { sender_name := decodedSenderName, content := decodedContent,
        timestamp_ms := r.timestamp_ms }
  | _, _ => um

/-- The whole `messages.forEach` loop: fold `ingestRecord` over the
records in document order, starting from the empty object. -/
def buildUserMessages (records : List RawRecord) : UserMessages :=
  records.foldl ingestRecord []

/-- The value of one top-level field of the parsed document: either an
array of message-shaped records, or any other JSON value (on which
`.forEach` is not a function, so calling it throws). -/
inductive DocValue where
  | records (rs : List RawRecord)
  | nonArray
deriving DecidableEq, Repr

/-- The result of `JSON.parse` on the uploaded text: either a JSON object
with named top-level fields, or any non-object JSON value (array, string,
number, boolean or null), on which `.messages` is absent (or, for `null`,
the access itself throws — caught by the same handler). -/
inductive ParsedDoc where
  | atom
  | obj (fields : List (JsStr × DocValue))
deriving DecidableEq, Repr

/-- `json.messages` followed by the `forEach` call: `some rs` when the
document is an object whose `messages` field holds an array of records;
`none` when the lookup yields no array (the `.forEach` call throws). -/
def docMessages (d : ParsedDoc) : Option (List RawRecord) :=
  match d with
  | ParsedDoc.atom => none
  | ParsedDoc.obj fields =>
    match fields.lookup (str "messages") with
    | some (DocValue.records rs) => some rs
    | _ => none

/-- The `reader.onload` body of `handleFileUpload` (`src/App.tsx:184-220`)
as a state transformer.  `parsed` is the outcome of `JSON.parse` (`none`
models a syntax error, i.e. a throw).  The result pairs the new component
state with a flag recording whether the `catch` handler ran (the error was
logged); `setData` is reached only when no exception escaped the `try`. -/
def handleFileUpload (parsed : Option ParsedDoc) (prior : Option UserMessages) :
    Option UserMessages × Bool :=
  match parsed with
  | none => (prior, true)
  | some d =>
    match docMessages d with
    | some records => (some (buildUserMessages records), false)
    | none => (prior, true)

/-- `getChartData` (`src/App.tsx:226-260`): with no data, empty chart;
otherwise count each sender's messages (no filtering), stable-sort the
senders descending by count, keep the first 7, and return parallel
label/count lists. -/
def getChartData (data : Option UserMessages) : List JsStr × List Nat :=
  match data with
  | none => ([], [])
  | some d =>
    let messageCounts := (jsEntries d).map (fun e => (e.1, e.2.length))
    let topUsers := (List.insertionSort cntGE messageCounts).take 7
    (topUsers.map Prod.fst, topUsers.map Prod.snd)

/-- Sample message: ordinary content, timestamp 5. -/
def mHello : Message := { sender_name := str "You", content := str " hello ", timestamp_ms := some 5 }

/-- Sample message: ordinary content, timestamp 1. -/
def mHi1 : Message := { sender_name := str "You", content := str "hi", timestamp_ms := some 1 }

/-- Sample message: ordinary content, timestamp 2. -/
def mYo2 : Message := { sender_name := str "Bob", content := str "yo", timestamp_ms := some 2 }

/-- Sample message: present timestamp whose value is 0. -/
def mHi0 : Message := { sender_name := str "You", content := str "hi", timestamp_ms := some 0 }

/-- Sample message: content "b", no timestamp. -/
def mContentB : Message := { sender_name := str "You", content := str "b", timestamp_ms := none }

/-- Sample message: content "5" (a canonical array-index string), no timestamp. -/
def mContent5 : Message := { sender_name := str "You", content := str "5", timestamp_ms := none }

/-- Sample record: well-formed, decodes cleanly. -/
def rGood : RawRecord :=
  { sender_name := some (str "You"), content := some (str "hi"), timestamp_ms := some 1000 }

/-- Sample record: its content is the single byte `0xFF`, an invalid UTF-8
leading byte, so `utf8.decode` throws on it. -/
def rBad : RawRecord :=
  { sender_name := some (str "Bob"), content := some [255], timestamp_ms := some 2000 }

/-- Sample record: well-formed, decodes cleanly. -/
def rAfter : RawRecord :=
  { sender_name := some (str "Bob"), content := some (str "yo"), timestamp_ms := some 3000 }

/-- Sample parsed document whose only top-level field is not the expected
message sequence. -/
def docNoMessages : ParsedDoc := ParsedDoc.obj [(str "foo", DocValue.nonArray)]

/-- Sample prior component state. -/
def priorState : Option UserMessages := some [(str "You", [mHi1])]

/-! ### Helper lemmas -/

theorem strIncludes_iff (needle hay : JsStr) :
    strIncludes needle hay = true ↔ needle <:+: hay := by
  induction hay with
  | nil => simp [strIncludes, List.infix_nil]
  | cons c rest ih =>
    rw [strIncludes, Bool.or_eq_true, List.infix_cons_iff, ih,
      List.isPrefixOf_iff_prefix]

theorem keepMsg_iff (m : Message) :
    keepMsg m = true ↔
      m.content ≠ [] ∧
      ¬ str "liked a message" <:+: toLowerAscii m.content ∧
      ¬ str "attachment" <:+: toLowerAscii m.content ∧
      ¬ str "like" <:+: toLowerAscii m.content ∧
      ∀ c ∈ m.content, c ≤ 127 := by
  simp only [keepMsg, Bool.and_eq_true, Bool.not_eq_true', ← strIncludes_iff,
    Bool.eq_false_iff, ne_eq, List.isEmpty_eq_true, List.any_eq_true,
    decide_eq_true_eq, not_exists, not_and, not_lt]
  constructor
  · rintro ⟨⟨⟨⟨h1, h2⟩, h3⟩, h4⟩, h5⟩
    exact ⟨h1, h2, h3, h4, fun c hc => h5 c hc⟩
  · rintro ⟨h1, h2, h3, h4, h5⟩
    exact ⟨⟨⟨⟨h1, h2⟩, h3⟩, h4⟩, fun c hc => h5 c hc⟩

/-! ### C1: `filterMessages` on a single message -/

/-- C1.  For every message `m`, `filterMessages [m]` is empty iff the
trimmed content is empty, or the lowercase trimmed content contains one of
the substrings "liked a message", "attachment" or "like", or the trimmed
content has a code point outside 7-bit ASCII; otherwise the result has
exactly one element. -/
theorem filterMessages_singleton (m : Message) :
    (filterMessages [m] = [] ↔
      jsTrim m.content = [] ∨
      str "liked a message" <:+: toLowerAscii (jsTrim m.content) ∨
      str "attachment" <:+: toLowerAscii (jsTrim m.content) ∨
      str "like" <:+: toLowerAscii (jsTrim m.content) ∨
      ∃ c ∈ jsTrim m.content, 127 < c) ∧
    (filterMessages [m] ≠ [] → (filterMessages [m]).length = 1) := by
  have base : filterMessages [m] =
      if keepMsg { m with content := jsTrim m.content }
      then [{ m with content := jsTrim m.content }] else [] := by
    simp [filterMessages, List.filter_cons]
  by_cases h : keepMsg { m with content := jsTrim m.content } = true
  · rw [base, if_pos h]
    rw [keepMsg_iff] at h
    obtain ⟨h1, h2, h3, h4, h5⟩ := h
    refine ⟨⟨fun hc => absurd hc (by simp), fun hd => ?_⟩, fun _ => rfl⟩
    rcases hd with hd | hd | hd | hd | hd
    · exact absurd hd h1
    · exact absurd hd h2
    · exact absurd hd h3
    · exact absurd hd h4
    · obtain ⟨c, hc, hlt⟩ := hd
      exact absurd hlt (not_lt.mpr (h5 c hc))
  · rw [base, if_neg h]
    refine ⟨⟨fun _ => ?_, fun _ => rfl⟩, fun hne => absurd rfl hne⟩
    rw [keepMsg_iff] at h
    by_contra hd
    push_neg at hd
    exact h ⟨hd.1, hd.2.1, hd.2.2.1, hd.2.2.2.1, hd.2.2.2.2⟩

/-- Witness for C1 at a concrete message. -/
theorem filterMessages_singleton_witness :
    (filterMessages [mHello] ≠ []) ∧ (filterMessages [mHello]).length = 1 :=
  ⟨by decide, (filterMessages_singleton mHello).2 (by decide)⟩

/-! ### C2: `getSortedMessagesAscending` drops `timestamp_ms = 0` -/

/-- C2 (code bug).  A message whose `timestamp_ms` is present with value
`0` is dropped by `getSortedMessagesAscending`, because the filter
`(msg) => msg.timestamp_ms` uses JavaScript truthiness and `0` is falsy —
contradicting the code's own comment ("Filter out messages without a
timestamp") and the spec, which drop only absent timestamps. -/
theorem getSorted_drops_zero_timestamp :
    getSortedMessagesAscending [mHi0] = [] ∧ mHi0.timestamp_ms.isSome = true := by
  exact ⟨by decide, rfl⟩

/-! ### C3: bounds for `getLatestMessages` / `getEarliestMessages` -/

/-- C3 (counterexample).  As stated the claim fails: with one kept message
and `n = 0`, `getLatestMessages` returns 1 > 0 elements (JavaScript
`slice(-0)` is `slice(0)`); and with one present-but-zero timestamp and
`n = 2` there are fewer than `n` timestamped messages, yet the functions
return none of them rather than all of them. -/
theorem latest_earliest_bounds_cex :
    (getLatestMessages [mHi1] 0).length = 1 ∧
    getLatestMessages [mHi0] 2 = [] := by
  exact ⟨by decide, by decide⟩

/-- C3 (amended).  For every `n ≥ 1`, `getLatestMessages` and
`getEarliestMessages` return at most `n` elements and never more than the
number of kept input messages (present and nonzero `timestamp_ms`); if
fewer than `n` kept messages exist they return all of them (the sorted
sequence), and if none exist they return the empty sequence. -/
theorem latest_earliest_bounds (messages : List Message) (n : Nat) (h : 1 ≤ n) :
    (getLatestMessages messages n).length ≤ n ∧
    (getEarliestMessages messages n).length ≤ n ∧
    (getLatestMessages messages n).length ≤ (messages.filter tsTruthy).length ∧
    (getEarliestMessages messages n).length ≤ (messages.filter tsTruthy).length ∧
    ((messages.filter tsTruthy).length ≤ n →
      getLatestMessages messages n = getSortedMessagesAscending messages ∧
      getEarliestMessages messages n = getSortedMessagesAscending messages) ∧
    ((messages.filter tsTruthy).length = 0 →
      getLatestMessages messages n = [] ∧ getEarliestMessages messages n = []) := by
  have hlen : (getSortedMessagesAscending messages).length =
      (messages.filter tsTruthy).length :=
    List.length_insertionSort _ _
  have hn : n ≠ 0 := Nat.one_le_iff_ne_zero.mp h
  have hlat : getLatestMessages messages n =
      (getSortedMessagesAscending messages).drop
        ((getSortedMessagesAscending messages).length - n) := by
    rw [getLatestMessages, jsSliceNeg, if_neg hn]
  refine ⟨?_, ?_, ?_, ?_, ?_, ?_⟩
  · rw [hlat, List.length_drop]; omega
  · rw [getEarliestMessages, List.length_take]; omega
  · rw [hlat, List.length_drop]; omega
  · rw [getEarliestMessages, List.length_take]; omega
  · intro hle
    constructor
    · rw [hlat]
      have : (getSortedMessagesAscending messages).length - n = 0 := by omega
      rw [this, List.drop_zero]
    · rw [getEarliestMessages]
      exact List.take_of_length_le (by omega)
  · intro h0
    have hnil : getSortedMessagesAscending messages = [] :=
      List.length_eq_zero.mp (by omega)
    constructor
    · rw [hlat, hnil, List.drop_nil]
    · rw [getEarliestMessages, hnil, List.take_nil]

/-- Witness for C3 at concrete input. -/
theorem latest_earliest_bounds_witness :
    1 ≤ 2 ∧ (getLatestMessages [mHi1] 2).length ≤ 2 :=
  ⟨by decide, (latest_earliest_bounds [mHi1] 2 (by decide)).1⟩

/-! ### C4: `getLatestMessages` / `getEarliestMessages` as slices -/

/-- C4 (counterexample).  At `n = 0` the claim fails: the last 0 elements
of the sorted sequence form the empty list, but `getLatestMessages`
returns the whole sorted sequence (`slice(-0)` is `slice(0)`). -/
theorem latest_earliest_slices_cex :
    getLatestMessages [mHi1, mYo2] 0 ≠ [] := by
  decide

/-- C4 (amended).  For every `n ≥ 1`, `getLatestMessages` returns the last
`n` elements of the ascending-sorted kept messages, in ascending order
(reversing, taking `n`, and reversing back), and `getEarliestMessages`
returns the first `n`; at `n = 0`, `getLatestMessages` instead returns the
whole sorted sequence. -/
theorem latest_earliest_slices (messages : List Message) (n : Nat) (h : 1 ≤ n) :
    getLatestMessages messages n =
      ((getSortedMessagesAscending messages).reverse.take n).reverse ∧
    getEarliestMessages messages n = (getSortedMessagesAscending messages).take n ∧
    getLatestMessages messages 0 = getSortedMessagesAscending messages := by
  refine ⟨?_, rfl, by rw [getLatestMessages, jsSliceNeg, if_pos rfl]⟩
  rw [getLatestMessages, jsSliceNeg, if_neg (Nat.one_le_iff_ne_zero.mp h),
    List.take_reverse, List.reverse_reverse]

/-- Witness for C4 at concrete input. -/
theorem latest_earliest_slices_witness :
    1 ≤ 1 ∧
    getLatestMessages [mHi1, mYo2] 1 =
      ((getSortedMessagesAscending [mHi1, mYo2]).reverse.take 1).reverse :=
  ⟨by decide, (latest_earliest_slices [mHi1, mYo2] 1 (by decide)).1⟩

/-! ### C5: the content-frequency aggregation -/

theorem mem_firstDedup {a : JsStr} : ∀ {l : List JsStr}, a ∈ firstDedup l ↔ a ∈ l := by
  intro l
  induction l using firstDedup.induct with
  | case1 => simp [firstDedup]
  | case2 x xs ih =>
    rw [firstDedup]
    simp only [List.mem_cons, ih, List.mem_filter, decide_eq_true_eq]
    constructor
    · rintro (h | ⟨h, _⟩)
      · exact Or.inl h
      · exact Or.inr h
    · rintro (h | h)
      · exact Or.inl h
      · by_cases hx : a = x
        · exact Or.inl hx
        · exact Or.inr ⟨h, hx⟩

theorem firstDedup_append_singleton (c : JsStr) :
    ∀ l : List JsStr,
      firstDedup (l ++ [c]) =
        if c ∈ l then firstDedup l else firstDedup l ++ [c] := by
  intro l
  induction l using firstDedup.induct with
  | case1 => simp [firstDedup]
  | case2 x xs ih =>
    rw [List.cons_append, firstDedup, List.filter_append]
    by_cases hcx : c = x
    · subst hcx
      have : List.filter (fun y => decide (y ≠ c)) [c] = [] := by simp
      rw [this, List.append_nil, if_pos (List.mem_cons_self c xs)]
      conv_rhs => rw [firstDedup]
    · have : List.filter (fun y => decide (y ≠ x)) [c] = [c] := by simp [hcx]
      rw [this, ih, firstDedup]
      have hmem : c ∈ xs.filter (fun y => decide (y ≠ x)) ↔ c ∈ xs := by
        simp [List.mem_filter, hcx]
      by_cases hcxs : c ∈ xs
      · rw [if_pos (hmem.mpr hcxs), if_pos (List.mem_cons_of_mem x hcxs)]
      · rw [if_neg (fun hw => hcxs (hmem.mp hw)),
          if_neg (by simp [hcx, hcxs]), List.cons_append]

theorem bump_tallyOf (ks : List JsStr) (c : JsStr) :
    bump (tallyOf ks) c = tallyOf (ks ++ [c]) := by
  have hmemtally : ∀ k : JsStr, k ∈ ks → (k, ks.count k) ∈ tallyOf ks := by
    intro k hk
    exact List.mem_map.mpr ⟨k, mem_firstDedup.mpr hk, rfl⟩
  by_cases hc : c ∈ ks
  · have hany : (tallyOf ks).any (fun e => e.1 == c) = true :=
      List.any_eq_true.mpr ⟨(c, ks.count c), hmemtally c hc, by simp⟩
    rw [bump, if_pos hany, tallyOf, tallyOf, firstDedup_append_singleton,
      if_pos hc, List.map_map]
    apply List.map_congr_left
    intro k hk
    simp only [Function.comp_apply, List.count_append]
    by_cases hkc : k = c
    · subst hkc
      simp [List.count_cons]
    · have hck : ¬c = k := fun h => hkc h.symm
      have : List.count k [c] = 0 := by
        simp [List.count_cons, hck]
      simp [this, beq_iff_eq, hkc]
  · have hany : (tallyOf ks).any (fun e => e.1 == c) = false := by
      rw [Bool.eq_false_iff]
      intro hw
      obtain ⟨e, he, heq⟩ := List.any_eq_true.mp hw
      obtain ⟨k, hk, hke⟩ := List.mem_map.mp he
      rw [← hke] at heq
      exact hc (beq_iff_eq.mp heq ▸ mem_firstDedup.mp hk)
    rw [bump, if_neg (by rw [hany]; exact Bool.false_ne_true), tallyOf, tallyOf,
      firstDedup_append_singleton, if_neg hc, List.map_append]
    congr 1
    · apply List.map_congr_left
      intro k hk
      have hkc : k ≠ c := fun h => hc (h ▸ mem_firstDedup.mp hk)
      have : List.count k [c] = 0 := List.count_eq_zero.mpr (by simp [hkc])
      simp [List.count_append, this, Ne.symm hkc]
    · have : List.count c [c] = 1 := by simp
      simp [List.count_append, List.count_eq_zero.mpr hc, this]

theorem foldl_bump_tallyOf :
    ∀ (cs ks : List JsStr), cs.foldl bump (tallyOf ks) = tallyOf (ks ++ cs) := by
  intro cs
  induction cs with
  | nil => intro ks; simp
  | cons c cs ih =>
    intro ks
    rw [List.foldl_cons, bump_tallyOf, ih (ks ++ [c]), List.append_assoc,
      List.singleton_append]

/-- C5 (counterexample).  The claim's tie-break ("first-encountered
order") fails: contents `"b"` then `"5"` each occur once, but the label
list is `["5", "b"]`, because `"5"` is a canonical array-index property
key and `Object.entries` enumerates such keys before all others. -/
theorem getTopMessages_tiebreak_cex :
    (getTopMessages [mContentB, mContent5]).1 = [str "5", str "b"] ∧
    (getTopMessages [mContentB, mContent5]).1 ≠ [str "b", str "5"] ∧
    (getTopMessages [mContentB, mContent5]).2 = [1, 1] := by
  exact ⟨by decide, by decide, by decide⟩

/-- C5 (amended).  `getTopMessages` first applies the message filter, maps
each distinct post-trim content string to its occurrence count among the
surviving messages, and returns the 7 most frequent as parallel label and
count sequences, stable-sorted descending by count over the JavaScript
own-property enumeration: contents that are canonical array-index strings
come first in ascending numeric order, the rest in first-encountered
order. -/
theorem getTopMessages_spec (messages : List Message) :
    getTopMessages messages = specTopMessages messages ∧
    List.Pairwise (fun a b : Nat => b ≤ a) (getTopMessages messages).2 ∧
    (getTopMessages messages).1.length ≤ 7 ∧
    (getTopMessages messages).2.length = (getTopMessages messages).1.length := by
  have hcounts :
      (filterMessages messages).foldl (fun obj m => bump obj m.content) [] =
        tallyOf ((filterMessages messages).map Message.content) := by
    rw [← List.foldl_map]
    have h0 : (tallyOf []) = ([] : List (JsStr × Nat)) := by
      simp [tallyOf, firstDedup]
    rw [← h0, foldl_bump_tallyOf, List.nil_append]
  have heq : getTopMessages messages = specTopMessages messages := by
    rw [getTopMessages, specTopMessages, hcounts]
  refine ⟨heq, ?_, ?_, ?_⟩
  · have hsorted := List.sorted_insertionSort cntGE
      (jsEntries ((filterMessages messages).foldl (fun obj m => bump obj m.content) []))
    have htake := hsorted.sublist (List.take_sublist 7 _)
    exact htake.map Prod.snd (fun _ _ h => h)
  · rw [getTopMessages]
    simp only [List.length_map, List.length_take]
    exact min_le_left _ _
  · rw [getTopMessages]
    simp [List.length_map]

/-! ### C6: the sender-count aggregation -/

theorem jsEntries_perm {α : Type} (obj : List (JsStr × α)) : List.Perm (jsEntries obj) obj := by
  rw [jsEntries]
  exact ((List.perm_insertionSort idxLE _).append
    (List.Perm.refl _)).trans (List.filter_append_perm _ obj)

/-- C6.  `getChartData` counts every ingested message per sender, with no
message filtering (each label's value is the full length of that sender's
list in the `UserMessages` state), and returns the 7 senders with highest
counts in descending count order; when there are at most 7 senders, every
sender appears. -/
theorem getChartData_spec (d : UserMessages) :
    (getChartData (some d)).1.length = min 7 d.length ∧
    (getChartData (some d)).2.length = (getChartData (some d)).1.length ∧
    List.Pairwise (fun a b : Nat => b ≤ a) (getChartData (some d)).2 ∧
    (∀ p ∈ (getChartData (some d)).1.zip (getChartData (some d)).2,
      ∃ ms, (p.1, ms) ∈ d ∧ p.2 = ms.length) ∧
    (∀ u ms, (u, ms) ∈ d → u ∉ (getChartData (some d)).1 →
      ∀ c ∈ (getChartData (some d)).2, ms.length ≤ c) ∧
    (d.length ≤ 7 → ∀ u ms, (u, ms) ∈ d → u ∈ (getChartData (some d)).1) := by
  have hchart : getChartData (some d) =
      (((List.insertionSort cntGE
          ((jsEntries d).map (fun e => (e.1, e.2.length)))).take 7).map Prod.fst,
       ((List.insertionSort cntGE
          ((jsEntries d).map (fun e => (e.1, e.2.length)))).take 7).map Prod.snd) := rfl
  have hpairs : ∀ q, q ∈ (jsEntries d).map (fun e => (e.1, e.2.length)) ↔
      ∃ ms, (q.1, ms) ∈ d ∧ q.2 = ms.length := by
    intro q
    rw [List.mem_map]
    constructor
    · rintro ⟨e, he, rfl⟩
      exact ⟨e.2, (jsEntries_perm d).mem_iff.mp he, rfl⟩
    · rintro ⟨ms, hms, hq⟩
      exact ⟨(q.1, ms), (jsEntries_perm d).mem_iff.mpr hms,
        by rw [← hq]⟩
  have hsorted := List.sorted_insertionSort cntGE
    ((jsEntries d).map (fun e => (e.1, e.2.length)))
  have hmemS : ∀ q, q ∈ List.insertionSort cntGE
      ((jsEntries d).map (fun e => (e.1, e.2.length))) ↔
      ∃ ms, (q.1, ms) ∈ d ∧ q.2 = ms.length := by
    intro q
    rw [(List.perm_insertionSort cntGE _).mem_iff, hpairs]
  have hSlen : (List.insertionSort cntGE
      ((jsEntries d).map (fun e => (e.1, e.2.length)))).length = d.length := by
    rw [List.length_insertionSort, List.length_map, (jsEntries_perm d).length_eq]
  refine ⟨?_, ?_, ?_, ?_, ?_, ?_⟩
  · rw [hchart]
    simp only [List.length_map, List.length_take]
    omega
  · rw [hchart]
    simp only [List.length_map]
  · rw [hchart]
    exact ((hsorted.sublist (List.take_sublist 7 _)).map Prod.snd fun _ _ h => h)
  · intro p hp
    rw [hchart] at hp
    simp only at hp
    rw [← List.zip_of_prod (rfl :
        ((List.insertionSort cntGE ((jsEntries d).map
          (fun e => (e.1, e.2.length)))).take 7).map Prod.fst = _) rfl] at hp
    exact (hmemS p).mp (List.take_subset 7 _ hp)
  · intro u ms hm hnot c hc
    rw [hchart] at hnot hc
    simp only [List.mem_map] at hc
    obtain ⟨x, hx, rfl⟩ := hc
    have hq : (u, ms.length) ∈ List.insertionSort cntGE
        ((jsEntries d).map (fun e => (e.1, e.2.length))) :=
      (hmemS (u, ms.length)).mpr ⟨ms, hm, rfl⟩
    rw [← List.take_append_drop 7 (List.insertionSort cntGE
      ((jsEntries d).map (fun e => (e.1, e.2.length)))), List.mem_append] at hq
    rcases hq with hq | hq
    · exact absurd (by simpa using List.mem_map_of_mem Prod.fst hq) hnot
    · have hpw := hsorted
      rw [← List.take_append_drop 7 (List.insertionSort cntGE
        ((jsEntries d).map (fun e => (e.1, e.2.length))))] at hpw
      exact (List.pairwise_append.mp hpw).2.2 x hx (u, ms.length) hq
  · intro hle u ms hm
    rw [hchart]
    simp only
    rw [List.take_of_length_le (by omega : (List.insertionSort cntGE
      ((jsEntries d).map (fun e => (e.1, e.2.length)))).length ≤ 7)]
    have hq : (u, ms.length) ∈ List.insertionSort cntGE
        ((jsEntries d).map (fun e => (e.1, e.2.length))) :=
      (hmemS (u, ms.length)).mpr ⟨ms, hm, rfl⟩
    simpa using List.mem_map_of_mem Prod.fst hq

/-- Witness for C6: in the spec's scenario, "Bob", whose only message is
filtered boilerplate, still appears in the sender chart. -/
theorem getChartData_spec_witness :
    ((str "You", [mHi1]) ∈
      [(str "You", [mHi1]), (str "Bob", [mYo2])] → True) ∧
    str "Bob" ∈ (getChartData (some
      [(str "You", [mHi1]), (str "Bob", [mYo2])])).1 :=
  ⟨fun _ => trivial,
    (getChartData_spec [(str "You", [mHi1]), (str "Bob", [mYo2])]).2.2.2.2.2
      (by decide) (str "Bob") [mYo2] (by decide)⟩

/-! ### C7: failed ingestion leaves prior state untouched -/

/-- C7.  If the uploaded text is not valid JSON (`parsed = none`), or the
parsed document lacks the expected `messages` array, `handleFileUpload`
reports the error (the `catch` handler runs) and returns the prior state
unchanged: no partial update is installed. -/
theorem handleFileUpload_failure (parsed : Option ParsedDoc)
    (prior : Option UserMessages)
    (h : parsed = none ∨ ∃ d, parsed = some d ∧ docMessages d = none) :
    handleFileUpload parsed prior = (prior, true) := by
  rcases h with h | ⟨d, rfl, hd⟩
  · subst h; rfl
  · simp [handleFileUpload, hd]

/-- Witness for C7 at a concrete malformed document and prior state. -/
theorem handleFileUpload_failure_witness :
    ((some docNoMessages : Option ParsedDoc) = none ∨
      ∃ d, (some docNoMessages : Option ParsedDoc) = some d ∧ docMessages d = none) ∧
    handleFileUpload (some docNoMessages) priorState = (priorState, true) :=
  ⟨Or.inr ⟨docNoMessages, rfl, by decide⟩,
    handleFileUpload_failure (some docNoMessages) priorState
      (Or.inr ⟨docNoMessages, rfl, by decide⟩)⟩

/-! ### C8: per-record decode failure -/

/-- C8 (counterexample).  The record `rBad` fails the byte-reinterpret
decode, and — contrary to the claim — it is not incorporated at all: there
is no fallback to the original text, the inner `catch` only logs and the
record is dropped, while the rest of the batch is still processed. -/
theorem ingest_no_fallback_cex :
    utf8Decode (rBad.content.getD []) = none ∧
    buildUserMessages [rGood, rBad] =
      [(str "You",
        [{ sender_name := str "You", content := str "hi",
           timestamp_ms := some 1000 }])] := by
  exact ⟨by decide, by decide⟩

/-- C8 (amended).  Whenever byte-reinterpret decoding of a record's
content or sender name fails during ingestion, that single record is
skipped (not incorporated into `UserMessages` at all, with no fallback),
and the failure never aborts processing of the remaining records: the
result is exactly that of ingesting the batch without the failing
record. -/
theorem buildUserMessages_skips (pre post : List RawRecord) (r : RawRecord)
    (h : utf8Decode (r.content.getD []) = none ∨
      utf8Decode (r.sender_name.getD []) = none) :
    buildUserMessages (pre ++ r :: post) = buildUserMessages (pre ++ post) := by
  have hr : ∀ um, ingestRecord um r = um := by
    intro um
    rcases h with h | h
    · simp [ingestRecord, h]
    · cases hc : utf8Decode (r.content.getD []) <;> simp [ingestRecord, h, hc]
  rw [buildUserMessages, buildUserMessages, List.foldl_append, List.foldl_append,
    List.foldl_cons, hr]

/-- Witness for C8: the bad record between two good ones is skipped and
the rest of the batch is still ingested. -/
theorem buildUserMessages_skips_witness :
    (utf8Decode (rBad.content.getD []) = none ∨
      utf8Decode (rBad.sender_name.getD []) = none) ∧
    buildUserMessages ([rGood] ++ rBad :: [rAfter]) =
      buildUserMessages ([rGood] ++ [rAfter]) :=
  ⟨Or.inl (by decide),
    buildUserMessages_skips [rGood] [rAfter] rBad (Or.inl (by decide))⟩

/-! ### C9: `decodeUnicode` never decodes an escape -/

unseal percentDecode in
/-- C9 (code bug).  `decodeUnicode` rewrites `\uXXXX` to `%uXXXX`, but
`decodeURIComponent` does not accept the legacy `%u` form (`u` is not a
hex digit), so it throws and the `catch` returns the input: the literal
escape is returned unchanged instead of being replaced by `A` as the
function's name, comment and the spec intend. -/
theorem decodeUnicode_escape_unchanged :
    decodeUnicode (str "\\u0041") = str "\\u0041" ∧
    decodeUnicode (str "\\u0041") ≠ str "A" := by
  exact ⟨by decide, by decide⟩

/-! ### C10: idempotence of `decodeUnicode` -/

unseal percentDecode in
/-- C10 (counterexample).  `decodeUnicode` is not idempotent, and is not a
no-op on strings free of backslash-u escapes: `"%2541"` contains no escape
sequence, yet one application yields `"%41"` and a second yields `"A"`. -/
theorem decodeUnicode_not_idempotent_cex :
    decodeUnicode (decodeUnicode (str "%2541")) ≠ decodeUnicode (str "%2541") ∧
    decodeUnicode (str "%2541") = str "%41" ∧
    decodeUnicode (decodeUnicode (str "%2541")) = str "A" := by
  exact ⟨by decide, by decide, by decide⟩

theorem percentDecode_nil : percentDecode [] = some [] := by
  rw [percentDecode]

theorem percentDecode_cons_ne (c : Nat) (rest : JsStr) (hc : c ≠ 37) :
    percentDecode (c :: rest) = (percentDecode rest).map (c :: ·) := by
  rw [percentDecode, if_neg hc]

theorem pctEscape_u (t : JsStr) : pctEscape (117 :: t) = none := by
  cases t with
  | nil => rfl
  | cons b t' => simp [pctEscape, isHexDigit]

theorem percentDecode_pct_u (t : JsStr) : percentDecode (37 :: 117 :: t) = none := by
  rw [percentDecode, if_pos rfl, pctEscape_u]

theorem percentDecode_no_pct :
    ∀ s : JsStr, (∀ c ∈ s, c ≠ 37) → percentDecode s = some s := by
  intro s
  induction s with
  | nil => intro _; exact percentDecode_nil
  | cons c rest ih =>
    intro h
    rw [percentDecode_cons_ne c rest (h c (List.mem_cons_self c rest)),
      ih (fun x hx => h x (List.mem_cons_of_mem c hx))]
    rfl

theorem replEsc_no_pct :
    ∀ s : JsStr, (∀ c ∈ s, c ≠ 37) →
      percentDecode (replEsc s) = some s ∨ percentDecode (replEsc s) = none := by
  intro s
  induction s using replEsc.induct with
  | case1 a b c d rest2 hhex ih =>
    intro _
    right
    rw [replEsc, if_pos hhex]
    exact percentDecode_pct_u _
  | case2 a b c d rest2 hhex ih =>
    intro h
    have h92 : (92 : Nat) ≠ 37 := by decide
    have h117 : (117 : Nat) ≠ 37 := by decide
    have htail : ∀ x ∈ a :: b :: c :: d :: rest2, x ≠ 37 := by
      intro x hx
      exact h x (List.mem_cons_of_mem 92 (List.mem_cons_of_mem 117 hx))
    rw [replEsc, if_neg hhex, percentDecode_cons_ne _ _ h92,
      percentDecode_cons_ne _ _ h117]
    rcases ih htail with h1 | h1 <;> rw [h1]
    · exact Or.inl rfl
    · exact Or.inr rfl
  | case3 x rest hshape ih =>
    intro h
    rw [replEsc, percentDecode_cons_ne _ _ (h x (List.mem_cons_self x rest))]
    rcases ih (fun y hy => h y (List.mem_cons_of_mem x hy)) with h1 | h1 <;>
      rw [h1]
    · exact Or.inl rfl
    · exact Or.inr rfl
    exact hshape
  | case4 =>
    intro _
    left
    exact percentDecode_nil

/-- C10 (amended).  `decodeUnicode` is a no-op — and hence idempotent — on
every string containing no percent character; in general idempotence
fails, since `decodeURIComponent` rewrites percent escapes on each
application. -/
theorem decodeUnicode_noop_of_no_pct (s : JsStr) (h : ∀ c ∈ s, c ≠ 37) :
    decodeUnicode s = s ∧ decodeUnicode (decodeUnicode s) = decodeUnicode s := by
  have h1 : decodeUnicode s = s := by
    rcases replEsc_no_pct s h with hh | hh <;> rw [decodeUnicode, hh]
  exact ⟨h1, by rw [h1, h1]⟩

/-- Witness for C10 on a concrete percent-free string. -/
theorem decodeUnicode_noop_witness :
    (∀ c ∈ str "hello", c ≠ 37) ∧ decodeUnicode (str "hello") = str "hello" :=
  ⟨by decide, (decodeUnicode_noop_of_no_pct (str "hello") (by decide)).1⟩

end StatsInsta
